import Mathlib

/-!
Verification of the caching/fallback core of the `china-stock-mcp` repository.

This file gives a shallow embedding of the two pieces of the repository with
genuine design content, and proves the specified properties about them:

* `src/china_stock_mcp/cache_utils.py` — `_generate_cache_key` and the
  two-tier (memory + disk) caching wrapper produced by `cached_data_fetch`;
* `src/china_stock_mcp/server.py` — `_fetch_data_with_fallback`, the
  prioritized data-source fallback helper.

Python `pandas.DataFrame` values are modelled by `DataF` (a list of rows,
with `DataF.empty` mirroring `df.empty`); Python argument values by `PyVal`;
wall-clock time by integers; the in-memory dict and the disk cache directory
by association lists keyed by the cache-key string.  The SHA-256 hexdigest is
abstracted as a parameter `sha256hex : String → String` of the key
computation: the serialization that feeds it is modelled concretely.
-/

/-- Model of a `pandas.DataFrame`: a list of rows of cells. -/
structure DataF where
  rows : List (List String)
deriving DecidableEq, Repr

/-- Mirrors the Python property `df.empty`: true when there are no rows. -/
def DataF.empty (d : DataF) : Bool := d.rows.isEmpty

/-- Model of a Python argument value as it matters to
`json.dumps(..., ensure_ascii=False, default=str)` in `_generate_cache_key`:
a JSON-native string, a JSON-native integer, or a non-JSON-serializable
object which `default=str` renders through `str(obj)` (so it is emitted as a
JSON string holding that rendering — e.g. a `datetime`). -/
inductive PyVal where
  | pstr (s : String)
  | pint (n : Int)
  | pobj (strForm : String)
deriving DecidableEq, Repr

/-- JSON escaping of one character, as `json.dumps` performs it for the
characters that can occur in our value universe (quote, backslash, the named
control escapes, other control characters as `\u00XX`). -/
def jsonEscapeChar (c : Char) : String :=
  if c = '"' then "\\\""
  else if c = '\\' then "\\\\"
  else if c = '\n' then "\\n"
  else if c = '\t' then "\\t"
  else if c = '\r' then "\\r"
  else if c.toNat < 32 then
    "\\u00" ++ String.singleton (Nat.digitChar (c.toNat / 16))
            ++ String.singleton (Nat.digitChar (c.toNat % 16))
  else String.singleton c

/-- JSON rendering of a string literal (quotes plus escaped content). -/
def jsonStr (s : String) : String :=
  "\"" ++ String.join (s.data.map jsonEscapeChar) ++ "\""

/-- JSON rendering of one `PyVal`.  A `pobj` goes through `default=str` and is
therefore emitted exactly like the string equal to its `str()` form. -/
def PyVal.toJson : PyVal → String
  | .pstr s => jsonStr s
  | .pint n => toString n
  | .pobj r => jsonStr r

/-- JSON rendering of a list, with `json.dumps`' default `", "` separator. -/
def jsonList (xs : List String) : String :=
  "[" ++ String.intercalate ", " xs ++ "]"

/-- Code-point comparison of strings, mirroring Python `str` ordering
(used by `sorted(kwargs.items(), key=lambda x: str(x[0]))`). -/
def charListLt : List Char → List Char → Bool
  | [], [] => false
  | [], _ :: _ => true
  | _ :: _, [] => false
  | a :: as, b :: bs =>
    if a.toNat < b.toNat then true
    else if b.toNat < a.toNat then false
    else charListLt as bs

/-- Strict code-point order on strings. -/
def strLt (a b : String) : Bool := charListLt a.data b.data

/-- Insert an element into an already sorted list, after all elements whose
key is not greater — so that the overall sort is stable, as Python `sorted`
is. -/
def insertByKey (x : String × PyVal) : List (String × PyVal) → List (String × PyVal)
  | [] => [x]
  | y :: ys => if strLt x.1 y.1 then x :: y :: ys else y :: insertByKey x ys

/-- Stable sort of the keyword arguments by key string, mirroring
`sorted(kwargs.items(), key=lambda x: str(x[0]))`. -/
def sortKwargs (kwargs : List (String × PyVal)) : List (String × PyVal) :=
  kwargs.foldl (fun acc x => insertByKey x acc) []

/-- JSON rendering of one sorted kwargs item: the pair `(name, value)`
becomes the two-element JSON array `["name", value]`. -/
def kwargPairJson (p : String × PyVal) : String :=
  "[" ++ jsonStr p.1 ++ ", " ++ p.2.toJson ++ "]"

/-- The `params_str` computed inside `_generate_cache_key`:
`json.dumps(\x7b"args": args, "kwargs": sorted_kwargs\x7d, ensure_ascii=False,
default=str)`. -/
def params_str (args : List PyVal) (kwargs : List (String × PyVal)) : String :=
  "\x7b\"args\": " ++ jsonList (args.map PyVal.toJson)
    ++ ", \"kwargs\": " ++ jsonList ((sortKwargs kwargs).map kwargPairJson)
    ++ "\x7d"

/-- The input handed to `hashlib.sha256` in `_generate_cache_key`:
`func.__qualname__ + params_str`. -/
def cacheKeyInput (qualname : String) (args : List PyVal)
    (kwargs : List (String × PyVal)) : String :=
  qualname ++ params_str args kwargs

/-- Model of `_generate_cache_key`, with the SHA-256 hexdigest abstracted as
the parameter `sha256hex`. -/
def _generate_cache_key (sha256hex : String → String) (qualname : String)
    (args : List PyVal) (kwargs : List (String × PyVal)) : String :=
  sha256hex (cacheKeyInput qualname args kwargs)

/-! ## The two-tier caching wrapper (`cached_data_fetch`) -/

/-- One entry of the in-process `_memory_cache` dict:
`\x7b"data": df, "timestamp": time.time()\x7d`. -/
structure MemEntry where
  data : DataF
  timestamp : Int
deriving DecidableEq, Repr

/-- Contents of one disk cache file: `pq.read_table` either succeeds and
yields the stored frame, or raises (a corrupt file). -/
inductive DiskContent where
  | ok (d : DataF)
  | corrupt
deriving DecidableEq, Repr

/-- One key-named file of the disk tier, with its `st_mtime`. -/
structure DiskEntry where
  content : DiskContent
  mtime : Int
deriving DecidableEq, Repr

/-- The mutable state the wrapper touches: the per-function in-memory dict
and the cache directory, both keyed by the cache-key string. -/
structure CacheState where
  mem : List (String × MemEntry)
  disk : List (String × DiskEntry)
deriving DecidableEq, Repr

/-- Delete a key from an association list (Python `del d[k]` / `os.remove`). -/
def removeKey {α : Type} (k : String) (l : List (String × α)) :
    List (String × α) :=
  l.filter (fun p => p.1 != k)

/-- Overwriting insertion (Python `d[k] = v` / writing the key-named file). -/
def insertKey {α : Type} (k : String) (v : α) (l : List (String × α)) :
    List (String × α) :=
  (k, v) :: removeKey k l

/-- The decorator's configuration: `mem_ttl`, `disk_ttl`,
`use_memory_cache`, `use_disk_cache` (the cache directory is implicit in
`CacheState.disk`). -/
structure Config where
  mem_ttl : Int
  disk_ttl : Int
  use_memory_cache : Bool
  use_disk_cache : Bool
deriving DecidableEq, Repr

/-- Outcome of calling the wrapped function (or of the wrapper itself): a
returned value (`none` models Python `None`) or a raised exception. -/
inductive FuncOutcome where
  | ret (d : Option DataF)
  | raiseE (msg : String)
deriving DecidableEq, Repr

/-- The environment of one wrapper invocation: the current wall-clock time
(`time.time()`), what `func(*args, **kwargs)` would do if invoked, and
whether `pq.write_table` would raise. -/
structure CallEnv where
  now : Int
  funcResult : FuncOutcome
  diskWriteFails : Bool
deriving DecidableEq, Repr

/-- Result of one wrapper invocation: what it returns or raises, whether the
wrapped function was invoked, and the state afterwards. -/
structure CallRes where
  result : FuncOutcome
  funcCalled : Bool
  state : CacheState
deriving DecidableEq, Repr

/-- Steps 3–4 of the wrapper (`cache_utils.py` lines 100–122): invoke the
wrapped function; if the result is non-`None` and non-empty, populate the
memory tier and then the disk tier, swallowing any disk-write exception;
return the result. -/
def wrapperFetchPhase (cfg : Config) (key : String) (env : CallEnv)
    (s : CacheState) : CallRes :=
  match env.funcResult with
  | .raiseE m => ⟨.raiseE m, true, s⟩
  | .ret none => ⟨.ret none, true, s⟩
  | .ret (some d) =>
    if d.empty then ⟨.ret (some d), true, s⟩
    else
      let s1 := if cfg.use_memory_cache then
          { s with mem := insertKey key ⟨d, env.now⟩ s.mem } else s
      let s2 := if cfg.use_disk_cache && !env.diskWriteFails then
          { s1 with disk := insertKey key ⟨.ok d, env.now⟩ s1.disk } else s1
      ⟨.ret (some d), true, s2⟩

/-- Step 2 of the wrapper (`cache_utils.py` lines 77–98): if the key-named
disk file exists and is younger than `disk_ttl`, read it — on success return
the frame (repopulating the memory tier when enabled), on a read failure
delete the corrupt file and fall through; an expired file is deleted and the
call falls through to the fetch phase. -/
def wrapperDiskPhase (cfg : Config) (key : String) (env : CallEnv)
    (s : CacheState) : CallRes :=
  if cfg.use_disk_cache then
    match s.disk.lookup key with
    | some entry =>
      if env.now - entry.mtime < cfg.disk_ttl then
        match entry.content with
        | .ok d =>
          let s' := if cfg.use_memory_cache then
              { s with mem := insertKey key ⟨d, env.now⟩ s.mem } else s
          ⟨.ret (some d), false, s'⟩
        | .corrupt =>
          wrapperFetchPhase cfg key env { s with disk := removeKey key s.disk }
      else
        wrapperFetchPhase cfg key env { s with disk := removeKey key s.disk }
    | none => wrapperFetchPhase cfg key env s
  else wrapperFetchPhase cfg key env s

/-- One invocation of the wrapper produced by `cached_data_fetch`
(`cache_utils.py` lines 63–122), for the given cache key.  Step 1: a
fresh-enough memory entry is returned at once; an expired one is deleted and
the call proceeds to the disk phase. -/
def wrapper (cfg : Config) (key : String) (env : CallEnv) (s : CacheState) :
    CallRes :=
  if cfg.use_memory_cache then
    match s.mem.lookup key with
    | some item =>
      if env.now - item.timestamp < cfg.mem_ttl then
        ⟨.ret (some item.data), false, s⟩
      else
        wrapperDiskPhase cfg key env { s with mem := removeKey key s.mem }
    | none => wrapperDiskPhase cfg key env s
  else wrapperDiskPhase cfg key env s

/-- A sequence of wrapper invocations, threading the cache state. -/
def runCalls (cfg : Config) (s : CacheState) :
    List (String × CallEnv) → CacheState
  | [] => s
  | (k, e) :: rest => runCalls cfg (wrapper cfg k e s).state rest

/-! ## The fallback fetcher (`_fetch_data_with_fallback`, `server.py`) -/

/-- Outcome of one call to `fetch_func`: a returned frame (possibly `None`,
modelled by `none`) or a raised exception with its `str(e)`. -/
inductive FetchRes where
  | ok (d : Option DataF)
  | err (msg : String)
deriving DecidableEq, Repr

/-- The error-log entry for a source that returned empty data
(`f"数据源 '\x7bcurrent_source\x7d' 返回空数据。"`). -/
def emptyMsg (s : String) : String := "数据源 '" ++ s ++ "' 返回空数据。"

/-- The error-log entry for a source whose fetch raised
(`f"从数据源 '\x7bcurrent_source\x7d' 获取数据失败: \x7bstr(e)\x7d"`). -/
def failMsg (s m : String) : String :=
  "从数据源 '" ++ s ++ "' 获取数据失败: " ++ m

/-- The aggregate `RuntimeError` message raised after exhaustion
(`f"所有数据源都未能获取到有效数据。详细错误: \x7b'; '.join(errors)\x7d"`). -/
def aggMsg (errors : List String) : String :=
  "所有数据源都未能获取到有效数据。详细错误: " ++ String.intercalate "; " errors

/-- First-occurrence deduplication of the candidate list (`server.py` lines
41–46, the `seen` set loop). -/
def dedupSeen (seen : List String) : List String → List String
  | [] => []
  | x :: xs =>
    if x ∈ seen then dedupSeen seen xs
    else x :: dedupSeen (x :: seen) xs

/-- The `for current_source in unique_data_source_priority` loop (`server.py`
lines 51–63).  Returns the `df` variable after the loop, the accumulated
`errors` list, and the list of sources actually attempted, in order. -/
def fallbackLoop (fetch : Option String → FetchRes) :
    List String → Option DataF × List String × List String
  | [] => (none, [], [])
  | s :: rest =>
    match fetch (some s) with
    | .err m =>
      let (df, errs, log) := fallbackLoop fetch rest
      (df, failMsg s m :: errs, s :: log)
    | .ok none =>
      let (df, errs, log) := fallbackLoop fetch rest
      (df, emptyMsg s :: errs, s :: log)
    | .ok (some d) =>
      if d.empty then
        let (df, errs, log) := fallbackLoop fetch rest
        (df, emptyMsg s :: errs, s :: log)
      else (some d, [], [s])

/-- Model of `_fetch_data_with_fallback` (`server.py` lines 14–70).  `fetch`
is the `fetch_func` closure over the forwarded `**kwargs`; its argument is
the `source` parameter (`none` meaning called with no source parameter, as
in the `primary_source is None` branch).  Besides the outcome, the model
returns the log of every `fetch_func` invocation with the source it was
given, in order. -/
def _fetch_data_with_fallback (fetch : Option String → FetchRes)
    (primary_source : Option String) (fallback_sources : List String) :
    FuncOutcome × List (Option String) :=
  match primary_source with
  | none =>
    match fetch none with
    | .ok d => (.ret d, [none])
    | .err m => (.raiseE m, [none])
  | some p =>
    let cands := dedupSeen [] (p :: fallback_sources)
    let (df, errs, log) := fallbackLoop fetch cands
    match df with
    | none => (.raiseE (aggMsg errs), log.map some)
    | some d =>
      if d.empty then (.raiseE (aggMsg errs), log.map some)
      else (.ret (some d), log.map some)

/-- Whether an attempt at source `s` fails to satisfy the fallback contract:
the fetch raises, returns `None`, or returns an empty frame. -/
def attemptFails (fetch : Option String → FetchRes) (s : String) : Bool :=
  match fetch (some s) with
  | .err _ => true
  | .ok none => true
  | .ok (some d) => d.empty

/-- The error-log entry the loop records for a failing attempt at `s`. -/
def entryFor (fetch : Option String → FetchRes) (s : String) : String :=
  match fetch (some s) with
  | .err m => failMsg s m
  | .ok _ => emptyMsg s

/-! ## Predicates used by the statements, and concrete sample data -/

/-- The call misses the memory tier: any entry stored under the key has
already aged past `mem_ttl` (this covers both an absent entry and an
expired one). -/
def memMisses (cfg : Config) (env : CallEnv) (s : CacheState) (key : String) :
    Prop :=
  ∀ it : MemEntry, s.mem.lookup key = some it →
    cfg.mem_ttl ≤ env.now - it.timestamp

/-- Every payload held by the memory tier is also present on the disk tier
under the same key. -/
def memHeldOnDisk (s : CacheState) : Prop :=
  ∀ (k : String) (e : MemEntry), s.mem.lookup k = some e →
    ∃ de : DiskEntry, s.disk.lookup k = some de ∧ de.content = .ok e.data

/-- A one-row sample frame. -/
def rowsC : DataF := ⟨[["600000", "10.5"]]⟩

/-- Another sample frame, for witnesses about the cache wrapper. -/
def rowsD : DataF := ⟨[["000001", "7.2"]]⟩

/-- Sample fetcher for the fallback scenario of the spec: source "A" raises,
source "B" returns an empty frame, source "C" returns rows. -/
def fetchABC : Option String → FetchRes
  | some "A" => .err "boom"
  | some "B" => .ok (some ⟨[]⟩)
  | some "C" => .ok (some rowsC)
  | _ => .err "no source"

/-- Sample fetcher where every source raises. -/
def fetchAllFail : Option String → FetchRes :=
  fun _ => .err "down"

/-- Sample fetcher that returns Python `None` regardless of source. -/
def fetchNoneRes : Option String → FetchRes :=
  fun _ => .ok none

/-! ## Association-list lemmas -/

theorem lookup_cons_pair {α : Type} (a k : String) (b : α)
    (es : List (String × α)) :
    List.lookup a ((k, b) :: es) =
      if a = k then some b else List.lookup a es := by
  by_cases h : a = k
  · simp [List.lookup, h]
  · simp [List.lookup, h, beq_false_of_ne h]

theorem lookup_removeKey_self {α : Type} (k : String) (l : List (String × α)) :
    (removeKey k l).lookup k = none := by
  induction l with
  | nil => rfl
  | cons p t ih =>
    simp only [removeKey, List.filter_cons] at ih ⊢
    by_cases h : p.1 = k
    · simpa [h] using ih
    · simpa [bne_iff_ne, h, lookup_cons_pair, Ne.symm h] using ih

theorem lookup_removeKey_ne {α : Type} (k k' : String) (l : List (String × α))
    (h : k' ≠ k) : (removeKey k l).lookup k' = l.lookup k' := by
  induction l with
  | nil => rfl
  | cons p t ih =>
    cases p with
    | mk pk pv =>
      simp only [removeKey, List.filter_cons] at ih ⊢
      by_cases hp : pk = k
      · have hk : k' ≠ pk := by simpa [hp] using h
        simp [hp, ih, lookup_cons_pair, hk, h]
      · simp [hp, lookup_cons_pair, ih]

theorem lookup_insertKey_self {α : Type} (k : String) (v : α)
    (l : List (String × α)) : (insertKey k v l).lookup k = some v := by
  simp [insertKey, lookup_cons_pair]

theorem lookup_insertKey_ne {α : Type} (k k' : String) (v : α)
    (l : List (String × α)) (h : k' ≠ k) :
    (insertKey k v l).lookup k' = l.lookup k' := by
  simp [insertKey, lookup_cons_pair, h, lookup_removeKey_ne k k' l h]

/-! ## Structural lemmas about the wrapper phases -/

/-- The fetch phase always invokes the wrapped function and returns or
raises exactly what it produced. -/
theorem wrapperFetchPhase_result (cfg : Config) (key : String) (env : CallEnv)
    (s : CacheState) :
    (wrapperFetchPhase cfg key env s).result = env.funcResult ∧
    (wrapperFetchPhase cfg key env s).funcCalled = true := by
  rcases env with ⟨now, fr, dwf⟩
  cases fr with
  | raiseE m => simp [wrapperFetchPhase]
  | ret dOpt =>
    cases dOpt with
    | none => simp [wrapperFetchPhase]
    | some d =>
      cases hde : d.empty <;> simp [wrapperFetchPhase, hde]

/-- After the fetch phase, the memory table holds at the key either what it
held before, or a fresh entry timestamped with the call's `now`. -/
theorem memAfter_fetchPhase (cfg : Config) (key : String) (env : CallEnv)
    (s : CacheState) :
    (wrapperFetchPhase cfg key env s).state.mem.lookup key =
      s.mem.lookup key ∨
    ∃ d : DataF, (wrapperFetchPhase cfg key env s).state.mem.lookup key =
      some ⟨d, env.now⟩ := by
  rcases env with ⟨now, fr, dwf⟩
  cases fr with
  | raiseE m => simp [wrapperFetchPhase]
  | ret dOpt =>
    cases dOpt with
    | none => simp [wrapperFetchPhase]
    | some d =>
      cases hde : d.empty
      · cases hm : cfg.use_memory_cache
        · cases hw : cfg.use_disk_cache && !dwf <;>
            simp [wrapperFetchPhase, hde, hm, hw]
        · cases hw : cfg.use_disk_cache && !dwf <;>
            exact Or.inr ⟨d, by simp [wrapperFetchPhase, hde, hm, hw,
              lookup_insertKey_self]⟩
      · simp [wrapperFetchPhase, hde]

/-- After the fetch phase, the disk table holds at the key either what it
held before, or a freshly written good file timestamped with `now`. -/
theorem diskAfter_fetchPhase (cfg : Config) (key : String) (env : CallEnv)
    (s : CacheState) :
    (wrapperFetchPhase cfg key env s).state.disk.lookup key =
      s.disk.lookup key ∨
    ∃ d : DataF, (wrapperFetchPhase cfg key env s).state.disk.lookup key =
      some ⟨.ok d, env.now⟩ := by
  rcases env with ⟨now, fr, dwf⟩
  cases fr with
  | raiseE m => simp [wrapperFetchPhase]
  | ret dOpt =>
    cases dOpt with
    | none => simp [wrapperFetchPhase]
    | some d =>
      cases hde : d.empty
      · cases hm : cfg.use_memory_cache <;> cases hw : cfg.use_disk_cache && !dwf
        · simp [wrapperFetchPhase, hde, hm, hw]
        · exact Or.inr ⟨d, by simp [wrapperFetchPhase, hde, hm, hw,
            lookup_insertKey_self]⟩
        · simp [wrapperFetchPhase, hde, hm, hw]
        · exact Or.inr ⟨d, by simp [wrapperFetchPhase, hde, hm, hw,
            lookup_insertKey_self]⟩
      · simp [wrapperFetchPhase, hde]

/-- After the disk phase, the memory table holds at the key either what it
held before, or a fresh entry timestamped with the call's `now`. -/
theorem memAfter_diskPhase (cfg : Config) (key : String) (env : CallEnv)
    (s : CacheState) :
    (wrapperDiskPhase cfg key env s).state.mem.lookup key =
      s.mem.lookup key ∨
    ∃ d : DataF, (wrapperDiskPhase cfg key env s).state.mem.lookup key =
      some ⟨d, env.now⟩ := by
  cases hdk : cfg.use_disk_cache
  · simpa [wrapperDiskPhase, hdk] using memAfter_fetchPhase cfg key env s
  · cases hlk : s.disk.lookup key with
    | none => simpa [wrapperDiskPhase, hdk, hlk] using
        memAfter_fetchPhase cfg key env s
    | some entry =>
      by_cases hfr : env.now - entry.mtime < cfg.disk_ttl
      · cases hc : entry.content with
        | ok d =>
          cases hm : cfg.use_memory_cache
          · simp [wrapperDiskPhase, hdk, hlk, hfr, hc, hm]
          · exact Or.inr ⟨d, by simp [wrapperDiskPhase, hdk, hlk, hfr, hc, hm,
              lookup_insertKey_self]⟩
        | corrupt =>
          simpa [wrapperDiskPhase, hdk, hlk, hfr, hc] using
            memAfter_fetchPhase cfg key env
              { s with disk := removeKey key s.disk }
      · simpa [wrapperDiskPhase, hdk, hlk, hfr] using
          memAfter_fetchPhase cfg key env
            { s with disk := removeKey key s.disk }

/-! ## The claims -/

/-- C3: with memory caching enabled, a call whose key matches a memory entry
of age strictly below `mem_ttl` returns that entry's stored payload
unchanged, does not invoke the wrapped function and leaves the state
untouched; if the matching entry's age is at least `mem_ttl`, that stale
entry is deleted during the call — afterwards the key is either absent from
the memory table or holds a fresh entry timestamped with the current time,
never the stale entry. -/
theorem C3_memory_hit_and_eviction (cfg : Config) (key : String)
    (env : CallEnv) (s : CacheState) (item : MemEntry)
    (hmem : cfg.use_memory_cache = true)
    (hlk : s.mem.lookup key = some item)
    (httl : 0 < cfg.mem_ttl) :
    (env.now - item.timestamp < cfg.mem_ttl →
      wrapper cfg key env s = ⟨.ret (some item.data), false, s⟩) ∧
    (cfg.mem_ttl ≤ env.now - item.timestamp →
      ((wrapper cfg key env s).state.mem.lookup key = none ∨
        ∃ d : DataF,
          (wrapper cfg key env s).state.mem.lookup key =
            some ⟨d, env.now⟩) ∧
      (wrapper cfg key env s).state.mem.lookup key ≠ some item) := by
  constructor
  · intro hfresh
    simp [wrapper, hmem, hlk, hfresh]
  · intro hexp
    have hnotlt : ¬(env.now - item.timestamp < cfg.mem_ttl) := not_lt.mpr hexp
    have hw : wrapper cfg key env s =
        wrapperDiskPhase cfg key env { s with mem := removeKey key s.mem } := by
      simp [wrapper, hmem, hlk, hnotlt]
    have hdisj := memAfter_diskPhase cfg key env
      { s with mem := removeKey key s.mem }
    rw [lookup_removeKey_self] at hdisj
    rw [hw]
    have hts : item.timestamp ≠ env.now := by omega
    refine ⟨hdisj, ?_⟩
    rcases hdisj with hnone | ⟨d, hfreshEntry⟩
    · simp [hnone]
    · rw [hfreshEntry]
      intro hcontra
      have : item.timestamp = env.now := by
        cases hcontra' : item
        injection hcontra with h1
        rw [hcontra'] at h1
        injection h1.symm with _ h2
      exact hts this

/-- C3 witness: a concrete fresh-hit instance of the memory tier. -/
theorem C3_witness :
    (0 : Int) - 0 < (10 : Int) ∧
    wrapper ⟨10, 20, true, true⟩ "k" ⟨0, .ret none, false⟩
        ⟨[("k", ⟨rowsD, 0⟩)], []⟩ =
      ⟨.ret (some rowsD), false, ⟨[("k", ⟨rowsD, 0⟩)], []⟩⟩ :=
  ⟨by decide,
    (C3_memory_hit_and_eviction ⟨10, 20, true, true⟩ "k" ⟨0, .ret none, false⟩
      ⟨[("k", ⟨rowsD, 0⟩)], []⟩ ⟨rowsD, 0⟩ rfl (by decide) (by decide)).1
      (by decide)⟩

/-- C4: with disk caching enabled, a call that misses the memory tier but
finds a key-named disk file younger than `disk_ttl` that deserializes
successfully returns the deserialized payload without invoking the wrapped
function, leaves the disk tier untouched, and — when memory caching is
enabled — inserts that payload into the memory tier with the current
timestamp (when it is disabled, the memory table is untouched). -/
theorem C4_disk_hit (cfg : Config) (key : String) (env : CallEnv)
    (s : CacheState) (entry : DiskEntry) (d : DataF)
    (hdisk : cfg.use_disk_cache = true)
    (hmiss : memMisses cfg env s key)
    (hlk : s.disk.lookup key = some entry)
    (hok : entry.content = .ok d)
    (hfresh : env.now - entry.mtime < cfg.disk_ttl) :
    (wrapper cfg key env s).result = .ret (some d) ∧
    (wrapper cfg key env s).funcCalled = false ∧
    (wrapper cfg key env s).state.disk = s.disk ∧
    (cfg.use_memory_cache = true →
      (wrapper cfg key env s).state.mem.lookup key = some ⟨d, env.now⟩) ∧
    (cfg.use_memory_cache = false →
      (wrapper cfg key env s).state.mem = s.mem) := by
  cases hm : cfg.use_memory_cache
  · simp [wrapper, wrapperDiskPhase, hm, hdisk, hlk, hfresh, hok]
  · cases hl : s.mem.lookup key with
    | none =>
      simp [wrapper, wrapperDiskPhase, hm, hl, hdisk, hlk, hfresh, hok,
        lookup_insertKey_self]
    | some it =>
      have hexp := hmiss it hl
      have hnotlt : ¬(env.now - it.timestamp < cfg.mem_ttl) := not_lt.mpr hexp
      simp [wrapper, wrapperDiskPhase, hm, hl, hnotlt, hdisk, hlk, hfresh,
        hok, lookup_insertKey_self]

/-- C4 witness: a concrete disk-hit call with an empty memory tier. -/
theorem C4_witness :
    (wrapper ⟨10, 20, true, true⟩ "k" ⟨5, .ret none, false⟩
        ⟨[], [("k", ⟨.ok rowsD, 0⟩)]⟩).result = .ret (some rowsD) ∧
    (wrapper ⟨10, 20, true, true⟩ "k" ⟨5, .ret none, false⟩
        ⟨[], [("k", ⟨.ok rowsD, 0⟩)]⟩).funcCalled = false ∧
    (wrapper ⟨10, 20, true, true⟩ "k" ⟨5, .ret none, false⟩
        ⟨[], [("k", ⟨.ok rowsD, 0⟩)]⟩).state.mem.lookup "k" =
      some ⟨rowsD, 5⟩ := by
  have h := C4_disk_hit ⟨10, 20, true, true⟩ "k" ⟨5, .ret none, false⟩
    ⟨[], [("k", ⟨.ok rowsD, 0⟩)]⟩ ⟨.ok rowsD, 0⟩ rowsD rfl
    (by intro it hit; simp at hit) (by decide) rfl (by decide)
  exact ⟨h.1, h.2.1, h.2.2.2.1 rfl⟩

/-- C6: a key-named disk file that is within `disk_ttl` but fails to
deserialize is deleted (afterwards the key is absent from the disk tier or
holds a freshly written good file, never the corrupt one), the wrapped
function is invoked, and the call's outcome is exactly the wrapped
function's own outcome — the deserialization error never reaches the
caller. -/
theorem C6_corrupt_file_self_healing (cfg : Config) (key : String)
    (env : CallEnv) (s : CacheState) (entry : DiskEntry)
    (hdisk : cfg.use_disk_cache = true)
    (hmiss : memMisses cfg env s key)
    (hlk : s.disk.lookup key = some entry)
    (hcor : entry.content = .corrupt)
    (hfresh : env.now - entry.mtime < cfg.disk_ttl) :
    (wrapper cfg key env s).funcCalled = true ∧
    (wrapper cfg key env s).result = env.funcResult ∧
    ((wrapper cfg key env s).state.disk.lookup key = none ∨
      ∃ d : DataF, (wrapper cfg key env s).state.disk.lookup key =
        some ⟨.ok d, env.now⟩) ∧
    (wrapper cfg key env s).state.disk.lookup key ≠ some entry := by
  have step : ∀ s' : CacheState, s'.disk = s.disk →
      wrapperDiskPhase cfg key env s' =
        wrapperFetchPhase cfg key env { s' with disk := removeKey key s'.disk } := by
    intro s' hs'
    simp [wrapperDiskPhase, hdisk, hs', hlk, hfresh, hcor]
  have hred : ∃ s' : CacheState, s'.disk = removeKey key s.disk ∧
      wrapper cfg key env s = wrapperFetchPhase cfg key env s' := by
    cases hm : cfg.use_memory_cache
    · exact ⟨{ s with disk := removeKey key s.disk }, rfl,
        by simpa [wrapper, hm] using step s rfl⟩
    · cases hl : s.mem.lookup key with
      | none => exact ⟨{ s with disk := removeKey key s.disk }, rfl,
          by simpa [wrapper, hm, hl] using step s rfl⟩
      | some it =>
        have hnotlt : ¬(env.now - it.timestamp < cfg.mem_ttl) :=
          not_lt.mpr (hmiss it hl)
        refine ⟨{ mem := removeKey key s.mem, disk := removeKey key s.disk },
          rfl, ?_⟩
        simpa [wrapper, hm, hl, hnotlt] using
          step ({ s with mem := removeKey key s.mem }) rfl
  rcases hred with ⟨s', hs', hw⟩
  rw [hw]
  have hres := wrapperFetchPhase_result cfg key env s'
  have hdsk := diskAfter_fetchPhase cfg key env s'
  rw [hs', lookup_removeKey_self] at hdsk
  refine ⟨hres.2, hres.1, hdsk, ?_⟩
  rcases hdsk with hnone | ⟨d, hgood⟩
  · simp [hnone]
  · rw [hgood]
    intro hcontra
    injection hcontra with h1
    rw [← h1] at hcor
    simp at hcor

/-- C6 witness: a concrete corrupt-but-fresh disk file; the wrapped function
runs and its payload replaces the corrupt file. -/
theorem C6_witness :
    (wrapper ⟨10, 20, true, true⟩ "k" ⟨5, .ret (some rowsD), false⟩
        ⟨[], [("k", ⟨.corrupt, 0⟩)]⟩).funcCalled = true ∧
    (wrapper ⟨10, 20, true, true⟩ "k" ⟨5, .ret (some rowsD), false⟩
        ⟨[], [("k", ⟨.corrupt, 0⟩)]⟩).result = .ret (some rowsD) ∧
    (wrapper ⟨10, 20, true, true⟩ "k" ⟨5, .ret (some rowsD), false⟩
        ⟨[], [("k", ⟨.corrupt, 0⟩)]⟩).state.disk.lookup "k" ≠
      some ⟨.corrupt, 0⟩ := by
  have h := C6_corrupt_file_self_healing ⟨10, 20, true, true⟩ "k"
    ⟨5, .ret (some rowsD), false⟩ ⟨[], [("k", ⟨.corrupt, 0⟩)]⟩ ⟨.corrupt, 0⟩
    rfl (by intro it hit; simp at hit) rfl rfl (by decide)
  exact ⟨h.1, h.2.1, h.2.2.2⟩

/-- Whenever a wrapper call (with both tiers enabled) actually invoked the
wrapped function, the call had reduced to the fetch phase on a state with
no memory entry and no disk file for the key. -/
theorem wrapper_funcCalled_reaches_fetch (cfg : Config) (key : String)
    (env : CallEnv) (s : CacheState)
    (hmem : cfg.use_memory_cache = true) (hdisk : cfg.use_disk_cache = true)
    (hcalled : (wrapper cfg key env s).funcCalled = true) :
    ∃ s' : CacheState, s'.mem.lookup key = none ∧ s'.disk.lookup key = none ∧
      wrapper cfg key env s = wrapperFetchPhase cfg key env s' := by
  have hdiskStep : ∀ s₁ : CacheState, s₁.mem.lookup key = none →
      (wrapperDiskPhase cfg key env s₁).funcCalled = true →
      ∃ s' : CacheState, s'.mem.lookup key = none ∧
        s'.disk.lookup key = none ∧
        wrapperDiskPhase cfg key env s₁ = wrapperFetchPhase cfg key env s' := by
    intro s₁ hm₁ hc₁
    cases hlk : s₁.disk.lookup key with
    | none => exact ⟨s₁, hm₁, hlk, by simp [wrapperDiskPhase, hdisk, hlk]⟩
    | some entry =>
      by_cases hfr : env.now - entry.mtime < cfg.disk_ttl
      · cases hc : entry.content with
        | ok d =>
          rw [wrapperDiskPhase] at hc₁
          simp [hdisk, hlk, hfr, hc] at hc₁
        | corrupt =>
          refine ⟨{ s₁ with disk := removeKey key s₁.disk }, hm₁,
            lookup_removeKey_self key s₁.disk, ?_⟩
          simp [wrapperDiskPhase, hdisk, hlk, hfr, hc]
      · refine ⟨{ s₁ with disk := removeKey key s₁.disk }, hm₁,
          lookup_removeKey_self key s₁.disk, ?_⟩
        simp [wrapperDiskPhase, hdisk, hlk, hfr]
  cases hl : s.mem.lookup key with
  | none =>
    have hred : wrapper cfg key env s = wrapperDiskPhase cfg key env s := by
      simp [wrapper, hmem, hl]
    rw [hred] at hcalled ⊢
    exact hdiskStep s hl hcalled
  | some item =>
    by_cases hfresh : env.now - item.timestamp < cfg.mem_ttl
    · rw [wrapper] at hcalled
      simp [hmem, hl, hfresh] at hcalled
    · have hred : wrapper cfg key env s =
          wrapperDiskPhase cfg key env { s with mem := removeKey key s.mem } := by
        simp [wrapper, hmem, hl, hfresh]
      rw [hred] at hcalled ⊢
      exact hdiskStep ({ s with mem := removeKey key s.mem })
        (lookup_removeKey_self key s.mem) hcalled

/-- A call whose key is absent from both tiers reduces to the fetch phase
(so it invokes the wrapped function), under any configuration. -/
theorem wrapper_miss_is_fetch (cfg : Config) (key : String) (env : CallEnv)
    (s : CacheState) (hml : s.mem.lookup key = none)
    (hdl : s.disk.lookup key = none) :
    wrapper cfg key env s = wrapperFetchPhase cfg key env s := by
  cases hm : cfg.use_memory_cache <;> cases hd : cfg.use_disk_cache <;>
    simp [wrapper, wrapperDiskPhase, hm, hd, hml, hdl]

/-- C5: a `None` or empty fetch result is never cached.  First conjunct: the
population step leaves the state exactly as it was.  Second conjunct: for a
call (with both tiers enabled) that invoked the wrapped function and got a
`None`/empty result, afterwards the key is absent from both tiers, and any
subsequent call with the same key invokes the wrapped function again. -/
theorem C5_empty_result_not_cached :
    (∀ (cfg : Config) (key : String) (env : CallEnv) (s : CacheState)
      (dOpt : Option DataF), env.funcResult = .ret dOpt →
      (∀ d : DataF, dOpt = some d → d.empty = true) →
      (wrapperFetchPhase cfg key env s).state = s) ∧
    (∀ (cfg : Config) (key : String) (env : CallEnv) (s : CacheState)
      (dOpt : Option DataF),
      cfg.use_memory_cache = true → cfg.use_disk_cache = true →
      (wrapper cfg key env s).funcCalled = true →
      env.funcResult = .ret dOpt →
      (∀ d : DataF, dOpt = some d → d.empty = true) →
      (wrapper cfg key env s).state.mem.lookup key = none ∧
      (wrapper cfg key env s).state.disk.lookup key = none ∧
      ∀ env₂ : CallEnv,
        (wrapper cfg key env₂ (wrapper cfg key env s).state).funcCalled =
          true) := by
  have hnoop : ∀ (cfg : Config) (key : String) (env : CallEnv)
      (s : CacheState) (dOpt : Option DataF), env.funcResult = .ret dOpt →
      (∀ d : DataF, dOpt = some d → d.empty = true) →
      (wrapperFetchPhase cfg key env s).state = s := by
    intro cfg key env s dOpt hfr hempty
    rcases env with ⟨now, fr, dwf⟩
    simp only at hfr
    subst hfr
    cases dOpt with
    | none => simp [wrapperFetchPhase]
    | some d => simp [wrapperFetchPhase, hempty d rfl]
  refine ⟨hnoop, ?_⟩
  intro cfg key env s dOpt hmem hdisk hcalled hfr hempty
  rcases wrapper_funcCalled_reaches_fetch cfg key env s hmem hdisk hcalled
    with ⟨s', hm', hd', heq⟩
  have hstate : (wrapper cfg key env s).state = s' := by
    rw [heq, hnoop cfg key env s' dOpt hfr hempty]
  rw [hstate]
  refine ⟨hm', hd', ?_⟩
  intro env₂
  rw [wrapper_miss_is_fetch cfg key env₂ s' hm' hd']
  exact (wrapperFetchPhase_result cfg key env₂ s').2

/-- C5 witness: an empty frame comes back from the wrapped function; nothing
is cached and a second identical call hits the wrapped function again. -/
theorem C5_witness :
    (wrapper ⟨10, 20, true, true⟩ "k" ⟨0, .ret (some ⟨[]⟩), false⟩
        ⟨[], []⟩).state.mem.lookup "k" = none ∧
    (wrapper ⟨10, 20, true, true⟩ "k" ⟨0, .ret (some ⟨[]⟩), false⟩
        ⟨[], []⟩).state.disk.lookup "k" = none ∧
    (wrapper ⟨10, 20, true, true⟩ "k" ⟨1, .ret none, false⟩
        (wrapper ⟨10, 20, true, true⟩ "k" ⟨0, .ret (some ⟨[]⟩), false⟩
          ⟨[], []⟩).state).funcCalled = true := by
  have h := (C5_empty_result_not_cached).2 ⟨10, 20, true, true⟩ "k"
    ⟨0, .ret (some ⟨[]⟩), false⟩ ⟨[], []⟩ (some ⟨[]⟩) rfl rfl (by decide) rfl
    (by intro d hd; injection hd with hd'; rw [← hd']; decide)
  exact ⟨h.1, h.2.1, h.2.2 ⟨1, .ret none, false⟩⟩

/-- Removing a key from the memory table preserves `memHeldOnDisk`. -/
theorem memHeldOnDisk_removeMem (s : CacheState) (key : String)
    (hInv : memHeldOnDisk s) :
    memHeldOnDisk { s with mem := removeKey key s.mem } := by
  intro k e hk
  by_cases hkk : k = key
  · rw [hkk, lookup_removeKey_self] at hk
    exact absurd hk (by simp)
  · rw [lookup_removeKey_ne key k s.mem hkk] at hk
    exact hInv k e hk

/-- The fetch phase preserves `memHeldOnDisk` when both tiers are enabled
and the disk write succeeds. -/
theorem memHeldOnDisk_fetchPhase (cfg : Config) (key : String)
    (env : CallEnv) (s : CacheState)
    (hmem : cfg.use_memory_cache = true)
    (hdisk : cfg.use_disk_cache = true) (hwf : env.diskWriteFails = false)
    (hInv : memHeldOnDisk s) :
    memHeldOnDisk (wrapperFetchPhase cfg key env s).state := by
  rcases env with ⟨now, fr, dwf⟩
  simp only at hwf
  subst hwf
  cases fr with
  | raiseE m => simpa [wrapperFetchPhase] using hInv
  | ret dOpt =>
    cases dOpt with
    | none => simpa [wrapperFetchPhase] using hInv
    | some d =>
      cases hde : d.empty
      · have hred :
            (wrapperFetchPhase cfg key ⟨now, .ret (some d), false⟩ s).state =
              ⟨insertKey key ⟨d, now⟩ s.mem,
                insertKey key ⟨.ok d, now⟩ s.disk⟩ := by
          simp [wrapperFetchPhase, hde, hmem, hdisk]
        rw [hred]
        intro k e hk
        simp only at hk ⊢
        by_cases hkk : k = key
        · subst hkk
          rw [lookup_insertKey_self k _ s.mem] at hk
          refine ⟨⟨.ok d, now⟩, lookup_insertKey_self k _ s.disk, ?_⟩
          injection hk with hk'
          rw [← hk']
        · rw [lookup_insertKey_ne key k _ s.mem hkk] at hk
          rw [lookup_insertKey_ne key k _ s.disk hkk]
          exact hInv k e hk
      · simpa [wrapperFetchPhase, hde] using hInv

/-- The disk phase preserves `memHeldOnDisk` when the disk write succeeds
and the call's key is (no longer) present in the memory table. -/
theorem memHeldOnDisk_diskPhase (cfg : Config) (key : String) (env : CallEnv)
    (s : CacheState)
    (hmem : cfg.use_memory_cache = true)
    (hdisk : cfg.use_disk_cache = true) (hwf : env.diskWriteFails = false)
    (hmk : s.mem.lookup key = none) (hInv : memHeldOnDisk s) :
    memHeldOnDisk (wrapperDiskPhase cfg key env s).state := by
  have hInvRm : memHeldOnDisk { s with disk := removeKey key s.disk } := by
    intro k e hk
    simp only at hk
    by_cases hkk : k = key
    · rw [hkk, hmk] at hk
      exact absurd hk (by simp)
    · rcases hInv k e hk with ⟨de, hde, hdc⟩
      exact ⟨de, by
        simpa [lookup_removeKey_ne key k s.disk hkk] using hde, hdc⟩
  cases hlk : s.disk.lookup key with
  | none =>
    rw [wrapperDiskPhase]
    simp only [hdisk, hlk, if_true]
    exact memHeldOnDisk_fetchPhase cfg key env s hmem hdisk hwf hInv
  | some entry =>
    by_cases hfr : env.now - entry.mtime < cfg.disk_ttl
    · cases hc : entry.content with
      | ok d =>
        have hred : (wrapperDiskPhase cfg key env s).state =
            ⟨insertKey key ⟨d, env.now⟩ s.mem, s.disk⟩ := by
          simp [wrapperDiskPhase, hdisk, hlk, hfr, hc, hmem]
        rw [hred]
        intro k e hk
        simp only at hk ⊢
        by_cases hkk : k = key
        · subst hkk
          rw [lookup_insertKey_self k _ s.mem] at hk
          refine ⟨entry, hlk, ?_⟩
          injection hk with hk'
          rw [← hk', hc]
        · rw [lookup_insertKey_ne key k _ s.mem hkk] at hk
          exact hInv k e hk
      | corrupt =>
        simp only [wrapperDiskPhase, hdisk, hlk, hfr, hc, if_true]
        exact memHeldOnDisk_fetchPhase cfg key env _ hmem hdisk hwf hInvRm
    · simp only [wrapperDiskPhase, hdisk, hlk, hfr, if_true, if_false]
      exact memHeldOnDisk_fetchPhase cfg key env _ hmem hdisk hwf hInvRm

/-- One wrapper call preserves `memHeldOnDisk` when both tiers are enabled
and the disk write succeeds. -/
theorem memHeldOnDisk_step (cfg : Config) (key : String) (env : CallEnv)
    (s : CacheState)
    (hmem : cfg.use_memory_cache = true) (hdisk : cfg.use_disk_cache = true)
    (hwf : env.diskWriteFails = false) (hInv : memHeldOnDisk s) :
    memHeldOnDisk (wrapper cfg key env s).state := by
  cases hl : s.mem.lookup key with
  | none =>
    rw [wrapper]
    simp only [hmem, hl, if_true]
    exact memHeldOnDisk_diskPhase cfg key env s hmem hdisk hwf hl hInv
  | some item =>
    by_cases hfresh : env.now - item.timestamp < cfg.mem_ttl
    · simpa [wrapper, hmem, hl, hfresh] using hInv
    · rw [wrapper]
      simp only [hmem, hl, hfresh, if_true, if_false]
      exact memHeldOnDisk_diskPhase cfg key env _ hmem hdisk hwf
        (lookup_removeKey_self key s.mem)
        (memHeldOnDisk_removeMem s key hInv)

/-- A sequence of calls preserves `memHeldOnDisk` under the same
conditions. -/
theorem memHeldOnDisk_runCalls (cfg : Config)
    (hmem : cfg.use_memory_cache = true) (hdisk : cfg.use_disk_cache = true) :
    ∀ (calls : List (String × CallEnv)) (s : CacheState),
      (∀ c ∈ calls, c.2.diskWriteFails = false) → memHeldOnDisk s →
      memHeldOnDisk (runCalls cfg s calls)
  | [], _, _, hInv => hInv
  | (k, e) :: rest, s, hwf, hInv =>
    memHeldOnDisk_runCalls cfg hmem hdisk rest (wrapper cfg k e s).state
      (fun c hc => hwf c (List.mem_cons_of_mem _ hc))
      (memHeldOnDisk_step cfg k e s hmem hdisk
        (hwf (k, e) (List.mem_cons_self _ _)) hInv)

/-- C2 (amended): starting from a fresh process (empty memory table,
arbitrary disk directory), after any sequence of calls with both tiers
enabled in which every disk write succeeds, every payload held by the
memory tier is also present on the disk tier under the same key. -/
theorem C2_mem_subset_disk_when_writes_succeed (cfg : Config)
    (d0 : List (String × DiskEntry)) (calls : List (String × CallEnv))
    (hmem : cfg.use_memory_cache = true) (hdisk : cfg.use_disk_cache = true)
    (hwf : ∀ c ∈ calls, c.2.diskWriteFails = false) :
    memHeldOnDisk (runCalls cfg ⟨[], d0⟩ calls) := by
  refine memHeldOnDisk_runCalls cfg hmem hdisk calls ⟨[], d0⟩ hwf ?_
  intro k e hk
  exact absurd hk (by simp)

/-- C2 witness: one successful call through an initially empty cache; the
payload the memory tier holds is on disk under the same key. -/
theorem C2_witness :
    ∃ de : DiskEntry,
      (runCalls ⟨10, 20, true, true⟩ ⟨[], []⟩
        [("k", ⟨0, .ret (some rowsD), false⟩)]).disk.lookup "k" =
          some de ∧
      de.content = .ok rowsD := by
  have h := C2_mem_subset_disk_when_writes_succeed ⟨10, 20, true, true⟩ []
    [("k", ⟨0, .ret (some rowsD), false⟩)] rfl rfl
    (by intro c hc; rw [List.mem_singleton] at hc; subst hc; rfl)
  exact h "k" ⟨rowsD, 0⟩ (by decide)

/-- C2 counterexample: with a failing disk write (an exception inside
`pq.write_table`, which the wrapper catches), the call stores the payload
in the memory tier while the disk tier never receives the key — the claim's
unconditional superset invariant is false. -/
theorem C2_counterexample :
    (wrapper ⟨10, 20, true, true⟩ "k" ⟨0, .ret (some rowsD), true⟩
        ⟨[], []⟩).state.mem.lookup "k" = some ⟨rowsD, 0⟩ ∧
    (wrapper ⟨10, 20, true, true⟩ "k" ⟨0, .ret (some rowsD), true⟩
        ⟨[], []⟩).state.disk = [] := by decide

/-- C10: when the disk write of the population step fails, the wrapper
swallows the failure and still returns the freshly fetched data; the memory
tier has been populated for the key while the disk tier still has no file
for it. -/
theorem C10_disk_write_failure_swallowed (cfg : Config) (key : String)
    (env : CallEnv) (s : CacheState) (d : DataF)
    (hmem : cfg.use_memory_cache = true)
    (hdisk : cfg.use_disk_cache = true)
    (hwf : env.diskWriteFails = true)
    (hfr : env.funcResult = .ret (some d))
    (hne : d.empty = false)
    (hml : s.mem.lookup key = none)
    (hdl : s.disk.lookup key = none) :
    (wrapper cfg key env s).result = .ret (some d) ∧
    (wrapper cfg key env s).funcCalled = true ∧
    (wrapper cfg key env s).state.mem.lookup key = some ⟨d, env.now⟩ ∧
    (wrapper cfg key env s).state.disk = s.disk ∧
    (wrapper cfg key env s).state.disk.lookup key = none := by
  have hred : wrapper cfg key env s = wrapperFetchPhase cfg key env s := by
    simp [wrapper, wrapperDiskPhase, hmem, hml, hdisk, hdl]
  rw [hred]
  rcases env with ⟨now, fr, dwf⟩
  simp only at hwf hfr
  subst hwf hfr
  simp [wrapperFetchPhase, hne, hmem, lookup_insertKey_self, hdl]

/-- C10 witness: a concrete call where the disk write raises. -/
theorem C10_witness :
    (wrapper ⟨10, 20, true, true⟩ "k" ⟨3, .ret (some rowsD), true⟩
        ⟨[], []⟩).result = .ret (some rowsD) ∧
    (wrapper ⟨10, 20, true, true⟩ "k" ⟨3, .ret (some rowsD), true⟩
        ⟨[], []⟩).state.mem.lookup "k" = some ⟨rowsD, 3⟩ ∧
    (wrapper ⟨10, 20, true, true⟩ "k" ⟨3, .ret (some rowsD), true⟩
        ⟨[], []⟩).state.disk.lookup "k" = none := by
  have h := C10_disk_write_failure_swallowed ⟨10, 20, true, true⟩ "k"
    ⟨3, .ret (some rowsD), true⟩ ⟨[], []⟩ rowsD rfl rfl rfl rfl (by decide)
    rfl rfl
  exact ⟨h.1, h.2.2.1, h.2.2.2.2⟩

/-- Full behaviour of the fallback loop: either every candidate fails (and
the loop records one error-log entry per candidate, attempting all of them
in order), or the candidate list splits as `pre ++ s :: rest` where every
source in `pre` fails, `s` returns a non-empty frame, and the loop returns
that frame having attempted exactly `pre ++ [s]` — `rest` is never
consulted. -/
theorem fallbackLoop_spec (fetch : Option String → FetchRes) :
    ∀ cands : List String,
    (fallbackLoop fetch cands = (none, cands.map (entryFor fetch), cands) ∧
      ∀ s ∈ cands, attemptFails fetch s = true) ∨
    (∃ pre s d rest, cands = pre ++ s :: rest ∧
      (∀ x ∈ pre, attemptFails fetch x = true) ∧
      fetch (some s) = .ok (some d) ∧ d.empty = false ∧
      fallbackLoop fetch cands =
        (some d, pre.map (entryFor fetch), pre ++ [s]))
  | [] => Or.inl ⟨rfl, by simp⟩
  | s :: rest => by
    cases hf : fetch (some s) with
    | err m =>
      rcases fallbackLoop_spec fetch rest with ⟨heq, hall⟩ |
        ⟨pre, s', d, rest', hre, hpre, hfs, hde, heq⟩
      · refine Or.inl ⟨?_, ?_⟩
        · simp [fallbackLoop, hf, heq, entryFor]
        · intro x hx
          rcases List.mem_cons.mp hx with h | h
          · subst h; simp [attemptFails, hf]
          · exact hall x h
      · refine Or.inr ⟨s :: pre, s', d, rest', by simp [hre], ?_, hfs, hde, ?_⟩
        · intro x hx
          rcases List.mem_cons.mp hx with h | h
          · subst h; simp [attemptFails, hf]
          · exact hpre x h
        · simp [fallbackLoop, hf, heq, entryFor]
    | ok dOpt =>
      cases dOpt with
      | none =>
        rcases fallbackLoop_spec fetch rest with ⟨heq, hall⟩ |
          ⟨pre, s', d, rest', hre, hpre, hfs, hde, heq⟩
        · refine Or.inl ⟨?_, ?_⟩
          · simp [fallbackLoop, hf, heq, entryFor]
          · intro x hx
            rcases List.mem_cons.mp hx with h | h
            · subst h; simp [attemptFails, hf]
            · exact hall x h
        · refine Or.inr ⟨s :: pre, s', d, rest', by simp [hre], ?_, hfs, hde,
            ?_⟩
          · intro x hx
            rcases List.mem_cons.mp hx with h | h
            · subst h; simp [attemptFails, hf]
            · exact hpre x h
          · simp [fallbackLoop, hf, heq, entryFor]
      | some d =>
        cases hde : d.empty
        · exact Or.inr ⟨[], s, d, rest, rfl, by simp, hf, hde,
            by simp [fallbackLoop, hf, hde]⟩
        · rcases fallbackLoop_spec fetch rest with ⟨heq, hall⟩ |
            ⟨pre, s', d', rest', hre, hpre, hfs, hde', heq⟩
          · refine Or.inl ⟨?_, ?_⟩
            · simp [fallbackLoop, hf, hde, heq, entryFor]
            · intro x hx
              rcases List.mem_cons.mp hx with h | h
              · subst h; simp [attemptFails, hf, hde]
              · exact hall x h
          · refine Or.inr ⟨s :: pre, s', d', rest', by simp [hre], ?_, hfs,
              hde', ?_⟩
            · intro x hx
              rcases List.mem_cons.mp hx with h | h
              · subst h; simp [attemptFails, hf, hde]
              · exact hpre x h
            · simp [fallbackLoop, hf, hde, heq, entryFor]

/-- C7: fallback resolution attempts sources strictly in the order of the
first-occurrence-deduplicated list `[primary] ++ fallbacks` and returns the
first non-empty result immediately, attempting nothing after it.  First
conjunct: `[A, B, A, C]` with primary `A` deduplicates to `[A, B, C]`.
Second conjunct: with `A` raising, `B` empty and `C` returning rows, the
resolver returns `C`'s rows after exactly the three attempts `A`, `B`, `C`
in order.  Third conjunct, in general: either every candidate fails and all
of them are attempted in order, or the candidate list splits as
`pre ++ s :: rest` with every source of `pre` failing, `s` non-empty, the
returned value `s`'s frame, and the attempt log exactly `pre ++ [s]`. -/
theorem C7_fallback_order_and_short_circuit :
    (dedupSeen [] ["A", "B", "A", "C"] = ["A", "B", "C"]) ∧
    (_fetch_data_with_fallback fetchABC (some "A") ["B", "C"] =
      (.ret (some rowsC), [some "A", some "B", some "C"])) ∧
    (∀ (fetch : Option String → FetchRes) (p : String) (fbs : List String),
      ((∀ s ∈ dedupSeen [] (p :: fbs), attemptFails fetch s = true) ∧
        (_fetch_data_with_fallback fetch (some p) fbs).2 =
          (dedupSeen [] (p :: fbs)).map some) ∨
      (∃ pre s d rest, dedupSeen [] (p :: fbs) = pre ++ s :: rest ∧
        (∀ x ∈ pre, attemptFails fetch x = true) ∧
        fetch (some s) = .ok (some d) ∧ d.empty = false ∧
        _fetch_data_with_fallback fetch (some p) fbs =
          (.ret (some d), (pre ++ [s]).map some))) := by
  refine ⟨by decide, by decide, ?_⟩
  intro fetch p fbs
  rcases fallbackLoop_spec fetch (dedupSeen [] (p :: fbs)) with ⟨heq, hall⟩ |
    ⟨pre, s, d, rest, hre, hpre, hfs, hde, heq⟩
  · exact Or.inl ⟨hall, by simp [_fetch_data_with_fallback, heq]⟩
  · exact Or.inr ⟨pre, s, d, rest, hre, hpre, hfs, hde,
      by simp [_fetch_data_with_fallback, heq, hde]⟩

/-- C7 witness: the concrete three-source scenario, read off from the
theorem. -/
theorem C7_witness :
    _fetch_data_with_fallback fetchABC (some "A") ["B", "C"] =
      (.ret (some rowsC), [some "A", some "B", some "C"]) :=
  (C7_fallback_order_and_short_circuit).2.1

/-- C8: with a non-null primary source, the resolver raises if and only if
every deduplicated candidate raised or returned a null/empty result; the
single aggregate error's message is the code's fixed header followed by the
`'; '`-joined per-candidate entries (one entry per attempted candidate, in
order, each naming the candidate and its outcome), and in that case every
candidate was attempted. -/
theorem C8_exhaustion_aggregate_error :
    ∀ (fetch : Option String → FetchRes) (p : String) (fbs : List String),
      ((∃ m, (_fetch_data_with_fallback fetch (some p) fbs).1 = .raiseE m) ↔
        ∀ s ∈ dedupSeen [] (p :: fbs), attemptFails fetch s = true) ∧
      (∀ m, (_fetch_data_with_fallback fetch (some p) fbs).1 = .raiseE m →
        m = aggMsg ((dedupSeen [] (p :: fbs)).map (entryFor fetch)) ∧
        (_fetch_data_with_fallback fetch (some p) fbs).2 =
          (dedupSeen [] (p :: fbs)).map some ∧
        ∀ s ∈ dedupSeen [] (p :: fbs),
          entryFor fetch s ∈ (dedupSeen [] (p :: fbs)).map (entryFor fetch)) := by
  intro fetch p fbs
  rcases fallbackLoop_spec fetch (dedupSeen [] (p :: fbs)) with ⟨heq, hall⟩ |
    ⟨pre, s, d, rest, hre, hpre, hfs, hde, heq⟩
  · constructor
    · exact ⟨fun _ => hall, fun _ =>
        ⟨aggMsg ((dedupSeen [] (p :: fbs)).map (entryFor fetch)),
          by simp [_fetch_data_with_fallback, heq]⟩⟩
    · intro m hm
      rw [show (_fetch_data_with_fallback fetch (some p) fbs).1 =
          .raiseE (aggMsg ((dedupSeen [] (p :: fbs)).map (entryFor fetch)))
          from by simp [_fetch_data_with_fallback, heq]] at hm
      injection hm with hm'
      refine ⟨hm'.symm, by simp [_fetch_data_with_fallback, heq], ?_⟩
      intro s hs
      exact List.mem_map_of_mem (entryFor fetch) hs
  · have hres : _fetch_data_with_fallback fetch (some p) fbs =
        (.ret (some d), (pre ++ [s]).map some) := by
      simp [_fetch_data_with_fallback, heq, hde]
    constructor
    · constructor
      · rintro ⟨m, hm⟩
        rw [hres] at hm
        exact absurd hm (by simp)
      · intro hall
        have hsmem : s ∈ dedupSeen [] (p :: fbs) := by
          rw [hre]; exact List.mem_append_right pre (List.mem_cons_self s rest)
        have := hall s hsmem
        rw [attemptFails, hfs] at this
        simp [hde] at this
    · intro m hm
      rw [hres] at hm
      exact absurd hm (by simp)

/-- C8 witness: two sources that both raise; the resolver raises the
aggregate message naming both. -/
theorem C8_witness :
    ∃ m, (_fetch_data_with_fallback fetchAllFail (some "A") ["B"]).1 =
        .raiseE m ∧
      m = aggMsg ((dedupSeen [] ["A", "B"]).map (entryFor fetchAllFail)) := by
  have h := C8_exhaustion_aggregate_error fetchAllFail "A" ["B"]
  rcases h.1.mpr (by intro s hs; rfl) with ⟨m, hm⟩
  exact ⟨m, hm, (h.2 m hm).1⟩

/-- C9: with the `None` primary-source sentinel, the resolver calls the
fetch function exactly once, with no source parameter, and hands back its
outcome verbatim: a returned value — even `None` — is returned unchecked,
and a raised error propagates unchanged; no fallback source is ever
attempted. -/
theorem C9_no_routing_verbatim :
    ∀ (fetch : Option String → FetchRes) (fbs : List String),
      (∀ d : Option DataF, fetch none = .ok d →
        _fetch_data_with_fallback fetch none fbs = (.ret d, [none])) ∧
      (∀ m : String, fetch none = .err m →
        _fetch_data_with_fallback fetch none fbs = (.raiseE m, [none])) := by
  intro fetch fbs
  constructor
  · intro d hd
    simp [_fetch_data_with_fallback, hd]
  · intro m hm
    simp [_fetch_data_with_fallback, hm]

/-- C9 witness: a fetch returning Python `None` with no source routing; the
`None` comes back verbatim (it is never emptiness-checked) after exactly one
source-less call. -/
theorem C9_witness :
    _fetch_data_with_fallback fetchNoneRes none ["A", "B"] =
      (.ret none, [none]) :=
  (C9_no_routing_verbatim fetchNoneRes ["A", "B"]).1 none rfl

/-- C1 counterexample: two invocations of the same function with *different*
argument values — a non-JSON-serializable object whose `str()` form is
"2024-01-01 00:00:00" (e.g. `datetime(2024, 1, 1)`) versus the plain string
"2024-01-01 00:00:00" — produce the *same* serialization handed to SHA-256
(because `default=str` renders both identically), hence the same cache key
for any hexdigest function; so differing argument values do not always yield
different keys. -/
theorem C1_counterexample :
    PyVal.pobj "2024-01-01 00:00:00" ≠ PyVal.pstr "2024-01-01 00:00:00" ∧
    cacheKeyInput "fetch_data" [PyVal.pobj "2024-01-01 00:00:00"] [] =
      cacheKeyInput "fetch_data" [PyVal.pstr "2024-01-01 00:00:00"] [] ∧
    _generate_cache_key id "fetch_data"
        [PyVal.pobj "2024-01-01 00:00:00"] [] =
      _generate_cache_key id "fetch_data"
        [PyVal.pstr "2024-01-01 00:00:00"] [] := by
  exact ⟨by decide, by decide, by decide⟩

/-- C1 (amended): the key is stable across repeated computation, and — for a
collision-free (injective) digest — two invocations yield the same key
exactly when their canonical serializations (function identity plus the
`default=str` JSON of positional and sorted keyword arguments) coincide;
argument sets with different serializations always get different keys, but
distinct argument values may share a serialization, as the counterexample
shows. -/
theorem C1_key_stability_and_collision_characterization :
    (∀ (h : String → String) (q : String) (args : List PyVal)
        (kwargs : List (String × PyVal)),
      _generate_cache_key h q args kwargs =
        _generate_cache_key h q args kwargs) ∧
    (∀ h : String → String, Function.Injective h →
      ∀ (q : String) (args : List PyVal) (kwargs : List (String × PyVal))
        (q' : String) (args' : List PyVal)
        (kwargs' : List (String × PyVal)),
        (_generate_cache_key h q args kwargs =
            _generate_cache_key h q' args' kwargs' ↔
          cacheKeyInput q args kwargs = cacheKeyInput q' args' kwargs')) := by
  refine ⟨fun _ _ _ _ => rfl, ?_⟩
  intro h hinj q a k q' a' k'
  exact ⟨fun he => hinj he, fun he => by
    rw [_generate_cache_key, _generate_cache_key, he]⟩

/-- C1 witness: with the identity as an (injective) stand-in digest,
argument values `1` and `2` serialize differently and therefore get
different keys. -/
theorem C1_witness :
    _generate_cache_key id "fetch_data" [PyVal.pint 1] [] ≠
      _generate_cache_key id "fetch_data" [PyVal.pint 2] [] := by
  intro hk
  have h := (C1_key_stability_and_collision_characterization).2 id
    (fun _ _ hh => hh) "fetch_data" [PyVal.pint 1] [] "fetch_data"
    [PyVal.pint 2] []
  exact absurd (h.mp hk) (by decide)
